import Mathlib

/-!
Shallow embedding of the core state and algorithms of the fbbe block explorer
(cache layer in state.rs, mempool detail loop in threads/update_mempool_info.rs,
address indexer in threads/index_addresses.rs, node client in rpc/, request
pipeline in route.rs), together with proofs settling the behavioural claims
about it.

Modelling conventions:
  - 32-byte identifiers (Txid, BlockHash) and opaque byte buffers (serialized
    transactions and blocks, script tokens) are natural numbers; where byte-level
    structure matters (the persistent spending index) keys are lists of bytes.
  - Machine integers are Nat with explicit bounds or modular reduction where the
    source can overflow.
  - Stateful async code becomes explicit state passing; the HTTP requests issued
    to the node are recorded in an explicit trace so that claims about "no node
    call" or "exactly one call" are statable.
  - The node's responses are a deterministic oracle (a record of functions), as
    are the pure zero-copy parsers from the bitcoin_slices dependency.
-/

namespace Fbbe

/-- Decidable equality for fallible results, so concrete runs can be checked by
evaluation. -/
def exceptDecEq {ε α : Type} [DecidableEq ε] [DecidableEq α] :
    DecidableEq (Except ε α)
  | Except.ok x, Except.ok y =>
    if h : x = y then isTrue (by rw [h])
    else isFalse (by intro hc; cases hc; exact h rfl)
  | Except.ok _, Except.error _ => isFalse (by intro hc; cases hc)
  | Except.error _, Except.ok _ => isFalse (by intro hc; cases hc)
  | Except.error x, Except.error y =>
    if h : x = y then isTrue (by rw [h])
    else isFalse (by intro hc; cases hc; exact h rfl)

instance {ε α : Type} [DecidableEq ε] [DecidableEq α] : DecidableEq (Except ε α) :=
  exceptDecEq

/-- Lookup in an association list, the model of the HashMap / cache lookups. -/
def mlookup {α β : Type} [DecidableEq α] : List (α × β) → α → Option β
  | [], _ => none
  | (k, v) :: rest, a => if k = a then some v else mlookup rest a

/-- Insert into an association list replacing any existing binding for the key,
the model of HashMap::insert and of the cache inserts. -/
def minsert {α β : Type} [DecidableEq α] : List (α × β) → α → β → List (α × β)
  | [], a, b => [(a, b)]
  | (k, v) :: rest, a, b => if k = a then (a, b) :: rest else (k, v) :: minsert rest a b

/-! ## Mempool rate index and block template (threads/update_mempool_info.rs) -/

/-- TxidWeightFeeCompact: one entry of the mempool rate index. weight and fee are
u32 in the source (entries whose values exceed u32::MAX never enter the index). -/
structure TWFC where
  txid : Nat
  weight : Nat
  fee : Nat
deriving DecidableEq, Repr

/-- WeightFeeCompact::rate: the integer-math sort key (fee << 32) / weight.
Like the source, a zero weight is degenerate (the source would panic on division
by zero; Lean returns 0); no claim depends on it. -/
def TWFC.rate (e : TWFC) : Nat := e.fee * 4294967296 / e.weight

/-- The strict order of the rate index (Ord on TxidWeightFeeCompact): by rate,
then weight, then txid. -/
def TWFC.ltb (a b : TWFC) : Bool :=
  a.rate < b.rate ||
    (a.rate = b.rate && (a.weight < b.weight ||
      (a.weight = b.weight && a.txid < b.txid)))

/-- A list enumerates the rate index in descending order (rates.iter().rev())
when consecutive entries strictly decrease in the index order. -/
def descSortedB : List TWFC → Bool
  | [] => true
  | [_] => true
  | a :: b :: rest => TWFC.ltb b a && descSortedB (b :: rest)

/-- BlockTemplate (state.rs 119-135) without the mempool contents set, which is
modelled with the detail loop below. -/
structure BlockTemplateM where
  highest : Option TWFC
  last_in_block : Option TWFC
  middle_in_block : Option TWFC
  transactions : Option Nat
deriving DecidableEq, Repr

/-- The initial template installed by SharedState::new: every field None. -/
def template0 : BlockTemplateM := ⟨none, none, none, none⟩

/-- The take_while of update_mempool_details lines 264-273: walking the rate
index in descending order, count how many entries are taken, where an entry is
taken while the running weight sum after adding it stays strictly below the
maximum block weight of 4,000,000 wu. -/
def templateCount : List TWFC → Nat → Nat
  | [], _ => 0
  | e :: rest, sum =>
    if sum + e.weight < 4000000 then templateCount rest (sum + e.weight) + 1 else 0

/-- Total weight of a list of rate-index entries. -/
def sumWeights (l : List TWFC) : Nat := (l.map TWFC.weight).sum

/-- Lines 260-285 of update_mempool_details: recompute the published block
template from the rate index. desc is the index in descending order; on the
ascending BTreeSet iterator of the source, rates.last() is desc.head? and
nth_back(j) is entry j of desc. block_template_last is the max of the enumerate
indices surviving the take_while, i.e. none when no entry is taken and some n
when n+1 entries are taken; when it is none only highest is overwritten and the
other published fields keep their previous values. -/
def updateFees (desc : List TWFC) (old : BlockTemplateM) : BlockTemplateM :=
  match templateCount desc 0 with
  | 0 => { old with highest := desc.head? }
  | n + 1 =>
    { highest := desc.head?
      last_in_block := desc.get? n
      middle_in_block := desc.get? (n / 2)
      transactions := some (n + 1) }

/-- Descending rate index for the first cycle of the staleness counterexample:
one light transaction. -/
def cexDesc1 : List TWFC := [⟨1, 3999000, 100⟩]

/-- Descending rate index for the second cycle of the staleness counterexample:
one entry whose weight alone reaches the maximum block weight, so the take_while
takes nothing and the published count goes stale. -/
def cexDesc2 : List TWFC := [⟨2, 4000001, 100⟩]

/-- Descending rate index with two entries, for the middle_in_block index
counterexample: rates are 1000*2^32/1000 and 500*2^32/1000. -/
def cexDesc4 : List TWFC := [⟨2, 1000, 1000⟩, ⟨3, 1000, 500⟩]

/-! ## Blocks, outpoints and the address indexer (threads/index_addresses.rs) -/

/-- OutPoint: (txid, output index). -/
structure OutPoint where
  txid : Nat
  vout : Nat
deriving DecidableEq, Repr

/-- OutPoint::null, referenced by the coinbase input: all-zeros txid and
vout = u32::MAX. -/
def OutPoint.null : OutPoint := ⟨0, 4294967295⟩

/-- A transaction input as the indexer sees it: only its previous output. -/
structure TxInV where
  previous_output : OutPoint
deriving DecidableEq, Repr

/-- A transaction as the indexer sees it: inputs plus output script tokens. -/
structure TxV where
  input : List TxInV
  output : List Nat
deriving DecidableEq, Repr

/-- A block as the indexer sees it. block_hash is the opaque token for
block.block_hash(). -/
structure BlockV where
  block_hash : Nat
  txdata : List TxV
deriving DecidableEq, Repr

/-- IndexBlockResult (index_addresses.rs 186-192). The BTreeSets are modelled by
lists up to membership. -/
structure IndexBlockResult where
  block_hash : Nat
  height : Nat
  funding_sh : List Nat
  spending_sh : List OutPoint
deriving DecidableEq, Repr

/-- index_block (index_addresses.rs 354-379): funding records are the script
hashes of every output of every transaction; spending records are the
previous_output of every input of every transaction, with no coinbase filter. -/
def index_block (script_hash : Nat → Nat) (block : BlockV) (height : Nat) :
    IndexBlockResult :=
  { block_hash := block.block_hash
    height := height
    funding_sh := (block.txdata.map (fun tx => tx.output.map script_hash)).flatten
    spending_sh :=
      (block.txdata.map (fun tx => tx.input.map TxInV.previous_output)).flatten }

/-- The spending set as the claim states it (from the spec's words): the
outpoints consumed by non-coinbase inputs only; the null outpoint referenced by
the coinbase input is excluded. To be compared with index_block. -/
def spending_ops_claim (block : BlockV) : List OutPoint :=
  ((block.txdata.map (fun tx => tx.input.map TxInV.previous_output)).flatten).filter
    (fun op => op ≠ OutPoint.null)

/-- A minimal block: a single coinbase transaction, whose one input references
the null outpoint, and one output. -/
def coinbaseOnlyBlock : BlockV := ⟨10, [⟨[⟨OutPoint.null⟩], [5]⟩]⟩

/-! ## The persistent spending index (Database::get_spending) -/

/-- Byte i of the 32-byte internal array of a txid, taking the number as the
little-endian value of that array. -/
def txidByte (t i : Nat) : Nat := t / 256 ^ i % 256

/-- outpoint_hash (index_addresses.rs 173-175): u64::from_be_bytes of the first
8 bytes of the txid array. -/
def outpoint_hash (op : OutPoint) : Nat :=
  (List.range 8).foldl (fun acc i => acc * 256 + txidByte op.txid i) 0

/-- Big-endian byte encoding of a w-byte unsigned integer. -/
def toBeBytes (w n : Nat) : List Nat :=
  (List.range w).map (fun i => n / 256 ^ (w - 1 - i) % 256)

/-- Decode big-endian bytes, the model of u32::from_be_bytes on the key suffix. -/
def fromBeBytes (l : List Nat) : Nat := l.foldl (fun a b => a * 256 + b) 0

/-- outpoint_to_key (index_addresses.rs 176-180): the 8-byte big-endian
fingerprint, outpoint_hash plus vout wrapping in u64. -/
def outpoint_to_key (op : OutPoint) : List Nat :=
  toBeBytes 8 ((outpoint_hash op + op.vout) % 18446744073709551616)

/-- Lexicographic byte-string order, the key order of the persistent store. -/
def lexLe : List Nat → List Nat → Bool
  | [], _ => true
  | _ :: _, [] => false
  | x :: xs, y :: ys => if x < y then true else if x = y then lexLe xs ys else false

/-- The first record at or beyond the seek point: the lexicographically least
key ≥ start among the stored keys (RocksDB IteratorMode::From(start, Forward)
followed by next()). -/
def seekGe (db : List (List Nat)) (start : List Nat) : Option (List Nat) :=
  db.foldl
    (fun acc k =>
      if lexLe start k then
        match acc with
        | none => some k
        | some m => if lexLe k m then some k else some m
      else acc)
    none

/-- Database::get_spending (index_addresses.rs 123-141). The spending keyspace
is a set of 12-byte keys (8-byte outpoint fingerprint followed by the big-endian
height). The source calls .next().unwrap() on the iterator; when no record lies
at or beyond the seek point that unwrap panics, modelled by the outer none. When
a record is found, the result is some: the height when the 8-byte key prefix
equals the fingerprint, None otherwise. -/
def Database.get_spending (db : List (List Nat)) (op : OutPoint) :
    Option (Option Nat) :=
  let start := outpoint_to_key op
  match seekGe db start with
  | none => none
  | some key => some (if key.take 8 = start then some (fromBeBytes (key.drop 8)) else none)

/-! ## Node client and SharedState caches (rpc/, state.rs) -/

/-- The error kinds relevant to the modelled paths (error.rs). -/
inductive Err where
  | genesisTx
  | notFound
  | badStatus (code : Nat)
deriving DecidableEq, Repr

/-- One HTTP request issued to the node's REST interface, for the call traces. -/
inductive NodeCall where
  | txBin (txid : Nat)
  | txJson (txid : Nat)
  | blockBin (hash : Nat)
  | blockHashByHeight (height : Nat)
deriving DecidableEq, Repr

/-- A previous output as tx_output extracts it: value and script token.
Serialized buffers being opaque tokens, the parse itself is part of the node
oracle below. -/
structure TxOutV where
  value : Nat
  script_pubkey : Nat
deriving DecidableEq, Repr

/-- TxOut::NULL: u64::MAX value and the empty script (token 0). -/
def TxOutV.null : TxOutV := ⟨18446744073709551615, 0⟩

/-- Deterministic model of the node's REST responses for one run, plus the pure
tx_output parser on fetched buffers. txBin is the tx-bytes endpoint, txJsonHash
the block-hash projection of tx-json, txJsonFull the (block hash?, hex bytes)
pair of tx-json. -/
structure Node where
  txBin : Nat → Except Err Nat
  txJsonHash : Nat → Except Err (Option Nat)
  txJsonFull : Nat → Except Err (Option Nat × Nat)
  blockBin : Nat → Except Err Nat
  blockHashByHeight : Nat → Except Err Nat
  txOut : Nat → Nat → TxOutV

/-- The txid of the genesis coinbase, refused by the node (rpc/tx.rs 13-15). -/
def genesisTxid : Nat :=
  0x4a5e1e4baab89f3a32518a88c31bc87f618f76673e2cc77ab2127b7afdeda33b

/-- The hash of the genesis block, produced locally by genesis_block(network). -/
def genesisBlockHash : Nat :=
  0x000000000019d6689c085ae165831e934ff763ae46a2a6c172b3f1b60a8ce26f

/-- Opaque token for the serialized genesis coinbase, synthesized locally by
serialize(genesis_block(network).txdata.remove(0)); serialized transactions are
opaque tokens, so only its identity matters to the claims. -/
def genesisSerTx : Nat := 0

/-- TruncTxid (state.rs 45-66): the first 8 bytes of the txid array, i.e. the
txid modulo 2^64 under the little-endian byte correspondence. -/
def truncTxid (t : Nat) : Nat := t % 18446744073709551616

/-- The cache fields of SharedState that the transaction path touches: the
tx-bytes cache (SliceCache, keyed by full txid) and the tx-to-block LRU cache
(keyed by truncated txid). Eviction of the bounded caches is not modelled; the
claims concern which entries are looked up, fetched and inserted. -/
structure SState where
  txs : List (Nat × Nat)
  tx_in_block : List (Nat × Nat)
deriving DecidableEq, Repr

namespace rpcTx

/-- rpc::tx::call_raw (rpc/tx.rs 51-65): the genesis txid is refused before any
request; otherwise one tx-bytes request is issued. -/
def call_raw (o : Node) (txid : Nat) : Except Err Nat × List NodeCall :=
  if txid = genesisTxid then (Except.error Err.genesisTx, [])
  else (o.txBin txid, [NodeCall.txBin txid])

/-- rpc::tx::call_json (rpc/tx.rs 18-32): the genesis txid is refused before any
request; otherwise one tx-json request is issued. -/
def call_json (o : Node) (txid : Nat) :
    Except Err (Option Nat × Nat) × List NodeCall :=
  if txid = genesisTxid then (Except.error Err.genesisTx, [])
  else (o.txJsonFull txid, [NodeCall.txJson txid])

/-- rpc::tx::call_parse_json (rpc/tx.rs 34-49): on the synthetic GenesisTx error
the genesis coinbase and its block hash are synthesized locally. -/
def call_parse_json (o : Node) (txid : Nat) :
    Except Err (Option Nat × Nat) × List NodeCall :=
  match call_json o txid with
  | (Except.ok (bh, hexBytes), calls) => (Except.ok (bh, hexBytes), calls)
  | (Except.error Err.genesisTx, calls) =>
    (Except.ok (some genesisBlockHash, genesisSerTx), calls)
  | (Except.error e, calls) => (Except.error e, calls)

/-- Modelled from the spec: rpc::tx::call_json_only_hash is called from
SharedState::tx (state.rs 263) but absent from the sources. Per the spec, when
fetching only the block id the client uses the tx-json endpoint, which refuses
the genesis coinbase with the synthetic GenesisTx error; the result is the
optional containing-block hash. -/
def call_json_only_hash (o : Node) (txid : Nat) :
    Except Err (Option Nat) × List NodeCall :=
  if txid = genesisTxid then (Except.error Err.genesisTx, [])
  else (o.txJsonHash txid, [NodeCall.txJson txid])

end rpcTx

/-- SharedState::tx_fetch_and_cache (state.rs 281-300): fetch via
call_parse_json when the block hash is needed, else via call_raw; insert the
bytes, and the block hash when present, into the caches. -/
def SharedState.tx_fetch_and_cache (st : SState) (o : Node) (txid : Nat)
    (needs_block_hash : Bool) :
    Except Err (Nat × Option Nat) × SState × List NodeCall :=
  let fetched :=
    if needs_block_hash then rpcTx.call_parse_json o txid
    else
      match rpcTx.call_raw o txid with
      | (Except.ok t, calls) => (Except.ok ((none : Option Nat), t), calls)
      | (Except.error e, calls) => (Except.error e, calls)
  match fetched with
  | (Except.ok (block_hash, t), calls) =>
    let st1 := { st with txs := minsert st.txs txid t }
    let st2 :=
      match block_hash with
      | some bh =>
        { st1 with tx_in_block := minsert st1.tx_in_block (truncTxid txid) bh }
      | none => st1
    (Except.ok (t, block_hash), st2, calls)
  | (Except.error e, calls) => (Except.error e, st, calls)

/-- SharedState::tx (state.rs 233-279). The source tests !needs_block_hash
first; the branches are swapped accordingly. With the block hash needed, the
four (bytes-cache, block-cache) hit combinations each fetch only what is
missing. -/
def SharedState.tx (st : SState) (o : Node) (txid : Nat)
    (needs_block_hash : Bool) :
    Except Err (Nat × Option Nat) × SState × List NodeCall :=
  let tx := mlookup st.txs txid
  if needs_block_hash then
    let block_hash := mlookup st.tx_in_block (truncTxid txid)
    match tx, block_hash with
    | some t, some bh => (Except.ok (t, some bh), st, [])
    | some t, none =>
      match rpcTx.call_json_only_hash o txid with
      | (Except.ok (some bh), calls) =>
        (Except.ok (t, some bh),
         { st with tx_in_block := minsert st.tx_in_block (truncTxid txid) bh },
         calls)
      | (Except.ok none, calls) => (Except.ok (t, none), st, calls)
      | (Except.error e, calls) => (Except.error e, st, calls)
    | none, some bh =>
      match rpcTx.call_raw o txid with
      | (Except.ok t, calls) =>
        (Except.ok (t, some bh), { st with txs := minsert st.txs txid t }, calls)
      | (Except.error e, calls) => (Except.error e, st, calls)
    | none, none => SharedState.tx_fetch_and_cache st o txid true
  else
    match tx with
    | some t => (Except.ok (t, none), st, [])
    | none =>
      match rpcTx.call_raw o txid with
      | (Except.ok t, calls) =>
        (Except.ok (t, none), { st with txs := minsert st.txs txid t }, calls)
      | (Except.error e, calls) => (Except.error e, st, calls)

/-- SharedState::preload_prevouts_inner (state.rs 307-351): the parents still
missing from the bytes-cache snapshot (and not the all-zeros txid) are fetched
concurrently; failures are silently dropped; successes are inserted keyed by the
txid recomputed from the fetched bytes, which under the deterministic node model
is the requested txid. -/
def preload_prevouts_inner (st : SState) (o : Node) (ops : List OutPoint) :
    SState × List NodeCall :=
  let needed :=
    (ops.map OutPoint.txid).filter (fun t => (mlookup st.txs t).isNone && t ≠ 0)
  (needed.foldl
    (fun acc t =>
      match rpcTx.call_raw o t with
      | (Except.ok b, _) => { acc with txs := minsert acc.txs t b }
      | (Except.error _, _) => acc)
    st,
   (needed.map (fun t => (rpcTx.call_raw o t).2)).flatten)

/-- The per-input loop of fetch_prevouts (route.rs 575-596): a coinbase-style
input (all-zeros txid) yields TxOut::NULL; otherwise the parent transaction is
fetched through SharedState::tx and its vout extracted with tx_output; a fetch
failure yields TxOut::NULL when fill_missing is set and aborts the whole call
otherwise. -/
def fetch_prevouts_go (o : Node) (fill_missing : Bool) :
    SState → List OutPoint → Except Err (List TxOutV) × SState × List NodeCall
  | st, [] => (Except.ok [], st, [])
  | st, i :: rest =>
    if i.txid ≠ 0 then
      match SharedState.tx st o i.txid false with
      | (Except.ok (b, _), st1, c1) =>
        match fetch_prevouts_go o fill_missing st1 rest with
        | (Except.ok l, st2, c2) => (Except.ok (o.txOut b i.vout :: l), st2, c1 ++ c2)
        | (Except.error e, st2, c2) => (Except.error e, st2, c1 ++ c2)
      | (Except.error e, st1, c1) =>
        if fill_missing then
          match fetch_prevouts_go o fill_missing st1 rest with
          | (Except.ok l, st2, c2) => (Except.ok (TxOutV.null :: l), st2, c1 ++ c2)
          | (Except.error e2, st2, c2) => (Except.error e2, st2, c1 ++ c2)
        else (Except.error e, st1, c1)
    else
      match fetch_prevouts_go o fill_missing st rest with
      | (Except.ok l, st2, c2) => (Except.ok (TxOutV.null :: l), st2, c2)
      | (Except.error e, st2, c2) => (Except.error e, st2, c2)

/-- The cache state at which the per-input loop of fetch_prevouts starts: after
the preload of route.rs 572-574, performed only when there is more than one
input. -/
def fetch_prevouts_state (st : SState) (o : Node) (inputs : List OutPoint) :
    SState :=
  if inputs.length > 1 then (preload_prevouts_inner st o inputs).1 else st

/-- fetch_prevouts (route.rs 566-598): the optional preload followed by the
per-input loop. -/
def fetch_prevouts (st : SState) (o : Node) (inputs : List OutPoint)
    (fill_missing : Bool) : Except Err (List TxOutV) × SState × List NodeCall :=
  match fetch_prevouts_go o fill_missing (fetch_prevouts_state st o inputs) inputs with
  | (r, st2, c2) =>
    (r, st2,
     (if inputs.length > 1 then (preload_prevouts_inner st o inputs).2 else []) ++ c2)

/-- SharedState::blocks_from_heights (state.rs 171-184): each height is looked
up in the height vector; an out-of-range height is silently skipped; an in-range
entry, sentinel or not, is used as the hash of a block-bytes request, whose
failure aborts the whole call. -/
def blocks_from_heights (v : List Nat) (o : Node) :
    List Nat → Except Err (List (Nat × Nat)) × List NodeCall
  | [] => (Except.ok [], [])
  | h :: rest =>
    match v[h]? with
    | some bh =>
      match o.blockBin bh with
      | Except.ok b =>
        match blocks_from_heights v o rest with
        | (Except.ok l, c) => (Except.ok ((bh, b) :: l), NodeCall.blockBin bh :: c)
        | (Except.error e, c) => (Except.error e, NodeCall.blockBin bh :: c)
      | Except.error e => (Except.error e, [NodeCall.blockBin bh])
    | none => blocks_from_heights v o rest

/-- reserve (state.rs 389-393): grow the height vector to cover the height,
filling with the all-zeros sentinel. -/
def reserve (v : List Nat) (height : Nat) : List Nat :=
  if v.length ≤ height then v ++ List.replicate (height + 1000 - v.length) 0 else v

/-- SharedState::hash (state.rs 218-231): unlike blocks_from_heights, the
sentinel is checked, and a sentinel entry triggers a block-hash-by-height
request whose result replaces it. -/
def SharedState.hash (v : List Nat) (o : Node) (height : Nat) :
    Except Err Nat × List Nat × List NodeCall :=
  let w := reserve v height
  if w.getD height 0 ≠ 0 then (Except.ok (w.getD height 0), w, [])
  else
    match o.blockHashByHeight height with
    | Except.ok bh =>
      (Except.ok bh, w.set height bh, [NodeCall.blockHashByHeight height])
    | Except.error e => (Except.error e, w, [NodeCall.blockHashByHeight height])

/-! ## Status checking (rpc/mod.rs) -/

/-- Externally visible effects of one node-client call. -/
inductive Eff where
  | request
  | sleep
deriving DecidableEq, Repr

/-- check_status (rpc/mod.rs 28-42): 200 is Ok; any other status is classified
as an error and returned, after a one-second sleep when the status is 503. -/
def check_status (status : Nat) : List Eff × Except Nat Unit :=
  if status = 200 then ([], Except.ok ())
  else if status = 503 then ([Eff.sleep], Except.error status)
  else ([], Except.error status)

/-- The shape shared by every node-client call function: issue exactly one HTTP
request, run check_status on the response status, and on success decode the
body. No call function contains a loop, so a retry could only show as a second
request effect. -/
def node_call {α : Type} (resp : Nat × α) : List Eff × Except Nat α :=
  let checked := check_status resp.1
  (Eff.request :: checked.1,
   match checked.2 with
   | Except.ok _ => Except.ok resp.2
   | Except.error e => Except.error e)

/-! ## The mempool detail loop (threads/update_mempool_info.rs 176-292) -/

/-- SpendPoint (state.rs 99-117): which input of which mempool transaction
spends an outpoint. -/
structure SpendPoint where
  txid : Nat
  vin : Nat
deriving DecidableEq, Repr

/-- Abstract per-cycle model of what the detail loop observes: whether fetching
a transaction's bytes through SharedState::tx(txid, false) succeeds, and the
zero-copy parse results of the fetched bytes (outpoints_and_sum for the
transaction itself, tx_output(..).value for a parent output). -/
structure MempoolOracle where
  fetchOk : Nat → Bool
  inputsOf : Nat → List OutPoint
  outSum : Nat → Nat
  txWeight : Nat → Nat
  prevVal : OutPoint → Nat

/-- The state the detail loop maintains and publishes: the rate index, the
outpoint spending map, and the published mempool contents set. -/
structure MState where
  rates : List TWFC
  spending : List (OutPoint × SpendPoint)
  contents : List Nat
deriving DecidableEq, Repr

/-- Lines 211-216: insert (prevout → SpendPoint(txid, i)) for every enumerated
input of the transaction. -/
def insertSpendingFrom (t : Nat) :
    Nat → List OutPoint → List (OutPoint × SpendPoint) →
    List (OutPoint × SpendPoint)
  | _, [], sp => sp
  | i, p :: ps, sp => insertSpendingFrom t (i + 1) ps (minsert sp p ⟨t, i⟩)

/-- BTreeSet::insert on the rate index, modelled up to membership. -/
def insertRate (r : List TWFC) (e : TWFC) : List TWFC :=
  if e ∈ r then r else e :: r

/-- Total input value, summing tx_output(parent, vout).value over the prevouts
(lines 224-233). -/
def sumPrevVals (o : MempoolOracle) (ops : List OutPoint) : Nat :=
  (ops.map o.prevVal).sum

/-- The loop over mempool txids not yet in the rate index (lines 200-253). A
transaction whose own bytes cannot be fetched is skipped entirely; one whose
bytes are fetched has all its input outpoints inserted into the spending map,
and is then entered into the rate index unless a parent fetch fails (continue)
or fee or weight exceed u32::MAX. done counts the entries that reach the
elapsed-time check (the fully processed ones); budget = some i models the
one-minute budget expiring once done reaches i, abandoning the backlog; none
means the cycle stays within budget. -/
def runNew (o : MempoolOracle) (budget : Option Nat) :
    List Nat → Nat → List (OutPoint × SpendPoint) → List TWFC →
    List (OutPoint × SpendPoint) × List TWFC
  | [], _, sp, r => (sp, r)
  | t :: rest, done, sp, r =>
    if o.fetchOk t then
      let prevouts := o.inputsOf t
      let sp1 := insertSpendingFrom t 0 prevouts sp
      if prevouts.all (fun p => o.fetchOk p.txid) then
        let fee := sumPrevVals o prevouts - o.outSum t
        let r1 :=
          if fee ≤ 4294967295 ∧ o.txWeight t ≤ 4294967295 then
            insertRate r ⟨t, o.txWeight t, fee⟩
          else r
        if budget = some (done + 1) then (sp1, r1)
        else runNew o budget rest (done + 1) sp1 r1
      else runNew o budget rest done sp1 r
    else runNew o budget rest done sp r

/-- One iteration of the detail loop body on a successfully fetched mempool
contents set (lines 185-255): prune the rate index and the spending map to the
current mempool, process the txids not yet in the rate index, and publish the
contents set. The iteration order of the node's txid set is modelled by the
list order. -/
def update_mempool_details_cycle (o : MempoolOracle) (budget : Option Nat)
    (mempool : List Nat) (st : MState) : MState :=
  let rates := st.rates.filter (fun e => mempool.contains e.txid)
  let spending := st.spending.filter (fun kv => mempool.contains kv.2.txid)
  let ratesId := rates.map TWFC.txid
  let newTxids := mempool.filter (fun t => !ratesId.contains t)
  let res := runNew o budget newTxids 0 spending rates
  { rates := res.2, spending := res.1, contents := mempool }

/-- The invariant exactly as the spec states it: the spending-map keys are
exactly the union of the input outpoints of the transactions in the published
contents set. -/
def spendingInvariant (st : MState) (inputsOf : Nat → List OutPoint) : Prop :=
  ∀ op : OutPoint,
    (∃ s, (op, s) ∈ st.spending) ↔ ∃ t, t ∈ st.contents ∧ op ∈ inputsOf t

/-- The empty detail-loop state at process start. -/
def mstate0 : MState := ⟨[], [], []⟩

/-- Oracle for the spending-map counterexample: the bytes of transaction 7
cannot be fetched during the cycle, while transaction 7 spends outpoint (1,0). -/
def cexMempoolOracle : MempoolOracle :=
  { fetchOk := fun _ => false
    inputsOf := fun _ => [⟨1, 0⟩]
    outSum := fun _ => 0
    txWeight := fun _ => 1
    prevVal := fun _ => 1 }

/-- Oracle where every fetch succeeds, used by witnesses. -/
def okMempoolOracle : MempoolOracle :=
  { fetchOk := fun _ => true
    inputsOf := fun t => [⟨t + 100, 0⟩]
    outSum := fun _ => 1
    txWeight := fun _ => 400
    prevVal := fun _ => 2 }

/-- A concrete node model whose requests all succeed, used by witnesses. -/
def sampleNode : Node :=
  { txBin := fun t => Except.ok (t + 1000)
    txJsonHash := fun _ => Except.ok (some 77)
    txJsonFull := fun t => Except.ok (some 77, t + 1000)
    blockBin := fun h => Except.ok (h + 1)
    blockHashByHeight := fun h => Except.ok (h + 500)
    txOut := fun b v => ⟨b + v, 0⟩ }

/-- A concrete node model whose requests all fail, used by witnesses and
counterexamples. -/
def failNode : Node :=
  { txBin := fun _ => Except.error Err.notFound
    txJsonHash := fun _ => Except.error Err.notFound
    txJsonFull := fun _ => Except.error Err.notFound
    blockBin := fun _ => Except.error Err.notFound
    blockHashByHeight := fun _ => Except.error Err.notFound
    txOut := fun _ _ => TxOutV.null }

/-- A node model that cannot serve transaction 5 but serves everything else,
used to exercise a parent-fetch failure at a non-initial input position. -/
def mixedNode : Node :=
  { txBin := fun t =>
      if t = 5 then Except.error Err.notFound else Except.ok (t + 1000)
    txJsonHash := fun _ => Except.ok (some 77)
    txJsonFull := fun t => Except.ok (some 77, t + 1000)
    blockBin := fun h => Except.ok (h + 1)
    blockHashByHeight := fun h => Except.ok (h + 500)
    txOut := fun b v => ⟨b + v, 0⟩ }

/-! ## Claim statements as predicates -/

/-- The case analysis claimed for SharedState::tx, for one state, node model and
txid: with no block hash needed, a bytes hit returns the cached bytes with no
block id and no node call, and a miss issues exactly one tx-bytes request whose
successful result is inserted; with a block hash needed, each of the four hit
combinations fetches exactly the missing piece — nothing when both hit, the
block id alone via one tx-json request when only the bytes hit, the bytes alone
via one tx-bytes request when only the block hit, and both via the single
tx-json request of tx_fetch_and_cache when both missed. -/
def txCaseAnalysis (st : SState) (o : Node) (txid : Nat) : Prop :=
  (∀ t, mlookup st.txs txid = some t →
    SharedState.tx st o txid false = (Except.ok (t, none), st, [])) ∧
  (mlookup st.txs txid = none →
    (SharedState.tx st o txid false).2.2 = [NodeCall.txBin txid] ∧
    ∀ t, o.txBin txid = Except.ok t →
      SharedState.tx st o txid false =
        (Except.ok (t, none), { st with txs := minsert st.txs txid t },
         [NodeCall.txBin txid])) ∧
  (∀ t bh, mlookup st.txs txid = some t →
      mlookup st.tx_in_block (truncTxid txid) = some bh →
    SharedState.tx st o txid true = (Except.ok (t, some bh), st, [])) ∧
  (∀ t, mlookup st.txs txid = some t →
      mlookup st.tx_in_block (truncTxid txid) = none →
    (SharedState.tx st o txid true).2.2 = [NodeCall.txJson txid] ∧
    (∀ bh, o.txJsonHash txid = Except.ok (some bh) →
      SharedState.tx st o txid true =
        (Except.ok (t, some bh),
         { st with tx_in_block := minsert st.tx_in_block (truncTxid txid) bh },
         [NodeCall.txJson txid])) ∧
    (o.txJsonHash txid = Except.ok none →
      SharedState.tx st o txid true =
        (Except.ok (t, none), st, [NodeCall.txJson txid]))) ∧
  (∀ bh, mlookup st.txs txid = none →
      mlookup st.tx_in_block (truncTxid txid) = some bh →
    (SharedState.tx st o txid true).2.2 = [NodeCall.txBin txid] ∧
    ∀ t, o.txBin txid = Except.ok t →
      SharedState.tx st o txid true =
        (Except.ok (t, some bh), { st with txs := minsert st.txs txid t },
         [NodeCall.txBin txid])) ∧
  (mlookup st.txs txid = none →
      mlookup st.tx_in_block (truncTxid txid) = none →
    (SharedState.tx st o txid true).2.2 = [NodeCall.txJson txid] ∧
    ∀ bh t, o.txJsonFull txid = Except.ok (some bh, t) →
      SharedState.tx st o txid true =
        (Except.ok (t, some bh),
         { st with txs := minsert st.txs txid t,
                   tx_in_block := minsert st.tx_in_block (truncTxid txid) bh },
         [NodeCall.txJson txid]))

/-- The behaviour claimed for blocks_from_heights, for one height vector, node
model and height list: when every in-range hash (the sentinel included) is
servable by the node, the call succeeds and returns exactly the in-range
entries in order — out-of-range heights are silently omitted — and every
in-range sentinel entry leads to a block request for the all-zeros hash
itself. -/
def blocksFromHeightsOk (v : List Nat) (o : Node) (heights : List Nat) : Prop :=
  (∀ h ∈ heights, ∀ bh, v[h]? = some bh → ∃ b, o.blockBin bh = Except.ok b) →
    (blocks_from_heights v o heights).1 =
      Except.ok (heights.filterMap (fun h =>
        v[h]?.bind (fun bh =>
          match o.blockBin bh with
          | Except.ok b => some (bh, b)
          | Except.error _ => none))) ∧
    ∀ h ∈ heights, v[h]? = some 0 →
      NodeCall.blockBin 0 ∈ (blocks_from_heights v o heights).2

/-! ## Theorems -/

/-- Helper: the weight sum over a cons. -/
theorem sumWeights_cons (e : TWFC) (l : List TWFC) :
    sumWeights (e :: l) = e.weight + sumWeights l := by
  simp [sumWeights]

/-- Helper: the empty weight sum. -/
theorem sumWeights_nil : sumWeights [] = 0 := rfl

/-- Helper: the transactions count published when the take_while selects at
least one entry. -/
theorem updateFees_transactions_eq (desc : List TWFC) (old : BlockTemplateM)
    (n : Nat) (h : templateCount desc 0 = n + 1) :
    (updateFees desc old).transactions = some (n + 1) := by
  simp [updateFees, h]

/-- Helper: the running-sum take_while never lets the selected weight reach the
maximum block weight. -/
theorem templateCount_take_sum_lt (l : List TWFC) :
    ∀ s, s < 4000000 → s + sumWeights (l.take (templateCount l s)) < 4000000 := by
  induction l with
  | nil => intro s hs; simpa [templateCount, sumWeights]
  | cons e rest ih =>
    intro s hs
    by_cases h : s + e.weight < 4000000
    · have hrec := ih (s + e.weight) h
      simp only [templateCount, if_pos h, List.take_succ_cons, sumWeights_cons]
      omega
    · simp only [templateCount, if_neg h, List.take_zero, sumWeights_nil]
      omega

/-- C3 (counterexample): the published transactions count can go stale. In a
first cycle one light transaction is selected (count 1); in the next cycle the
rate index holds a single entry of weight 4,000,001, the take_while selects
nothing, the count is not overwritten, and the prefix of the new rate index of
the published size weighs more than 4,000,000. -/
theorem template_weight_exceeds_limit_after_stale_count :
    descSortedB cexDesc1 = true ∧ descSortedB cexDesc2 = true ∧
    (updateFees cexDesc2 (updateFees cexDesc1 template0)).transactions = some 1 ∧
    4000000 <
      sumWeights (cexDesc2.take
        ((updateFees cexDesc2 (updateFees cexDesc1 template0)).transactions.getD 0)) := by
  decide

/-- C3 (amended): whenever every entry of the rate index weighs less than the
maximum block weight — true of consensus-valid transactions, and exactly the
condition under which the take_while always selects at least one entry and the
published count is therefore fresh — the selected transactions of the published
template (the descending prefix of the published transactions count) weigh at
most 4,000,000 wu, whatever the previously published template was. -/
theorem template_weight_le_limit (desc : List TWFC) (old : BlockTemplateM)
    (hw : ∀ e ∈ desc, e.weight < 4000000) :
    sumWeights (desc.take ((updateFees desc old).transactions.getD 0)) ≤ 4000000 := by
  cases desc with
  | nil =>
    simp [sumWeights]
  | cons e rest =>
    have he : e.weight < 4000000 := hw e (List.mem_cons_self e rest)
    have hcount :
        templateCount (e :: rest) 0 = templateCount rest (0 + e.weight) + 1 := by
      simp only [templateCount, if_pos (show 0 + e.weight < 4000000 by omega)]
    have htr := updateFees_transactions_eq (e :: rest) old _ hcount
    rw [htr]
    have hsum := templateCount_take_sum_lt (e :: rest) 0 (by norm_num)
    rw [hcount] at hsum
    simp only [Option.getD_some]
    omega

/-- Witness for the amended C3 at a concrete one-entry rate index. -/
theorem template_weight_le_limit_witness :
    (∀ e ∈ cexDesc1, e.weight < 4000000) ∧
    sumWeights (cexDesc1.take
      ((updateFees cexDesc1 template0).transactions.getD 0)) ≤ 4000000 :=
  ⟨by decide, template_weight_le_limit cexDesc1 template0 (by decide)⟩

/-- C4 (counterexample): with a selected prefix of two transactions the
published middle_in_block is the entry at index 0 (the highest rate), not the
claimed index 2 / 2 = 1. -/
theorem middle_in_block_even_count_mismatch :
    descSortedB cexDesc4 = true ∧
    (updateFees cexDesc4 template0).transactions = some 2 ∧
    (updateFees cexDesc4 template0).middle_in_block = cexDesc4.get? 0 ∧
    cexDesc4.get? 0 ≠ cexDesc4.get? (2 / 2) := by
  decide

/-- C4 (amended): whenever the template computation selects n + 1 transactions,
the published middle_in_block is the entry at index n / 2 — that is, index
⌊(N − 1) / 2⌋ for a published count N, not ⌊N / 2⌋ — of the descending prefix,
and the published count is n + 1. -/
theorem middle_in_block_index (desc : List TWFC) (old : BlockTemplateM) (n : Nat)
    (h : templateCount desc 0 = n + 1) :
    (updateFees desc old).transactions = some (n + 1) ∧
    (updateFees desc old).middle_in_block = desc.get? (n / 2) := by
  simp [updateFees, h]

/-- Witness for the amended C4 at the concrete two-entry rate index. -/
theorem middle_in_block_index_witness :
    templateCount cexDesc4 0 = 1 + 1 ∧
    ((updateFees cexDesc4 template0).transactions = some (1 + 1) ∧
     (updateFees cexDesc4 template0).middle_in_block = cexDesc4.get? (1 / 2)) :=
  ⟨by decide, middle_in_block_index cexDesc4 template0 1 (by decide)⟩

/-- C5 (counterexample): index_block records the null outpoint referenced by the
coinbase input, while the claimed spending set excludes it. -/
theorem index_block_records_null_outpoint :
    OutPoint.null ∈ (index_block id coinbaseOnlyBlock 0).spending_sh ∧
    OutPoint.null ∉ spending_ops_claim coinbaseOnlyBlock := by
  decide

/-- C5 (amended): the spending records produced by index_block are exactly the
outpoints referenced by the inputs of all the block's transactions — the
coinbase input included, so its null outpoint is recorded too. -/
theorem index_block_spending_characterization (script_hash : Nat → Nat)
    (block : BlockV) (height : Nat) (op : OutPoint) :
    op ∈ (index_block script_hash block height).spending_sh ↔
      ∃ tx ∈ block.txdata, ∃ inp ∈ tx.input, inp.previous_output = op := by
  simp only [index_block, List.mem_flatten, List.mem_map]
  constructor
  · rintro ⟨l, ⟨tx, htx, rfl⟩, hop⟩
    rcases List.mem_map.mp hop with ⟨inp, hinp, rfl⟩
    exact ⟨tx, htx, inp, hinp, rfl⟩
  · rintro ⟨tx, htx, inp, hinp, rfl⟩
    exact ⟨tx.input.map TxInV.previous_output, ⟨tx, htx, rfl⟩,
      List.mem_map_of_mem TxInV.previous_output hinp⟩

/-- Witness for the amended C5 at a concrete block and outpoint: the null
outpoint of the coinbase-only block is recorded. -/
theorem index_block_spending_characterization_witness :
    OutPoint.null ∈ (index_block id coinbaseOnlyBlock 3).spending_sh ↔
      ∃ tx ∈ coinbaseOnlyBlock.txdata, ∃ inp ∈ tx.input,
        inp.previous_output = OutPoint.null :=
  index_block_spending_characterization id coinbaseOnlyBlock 3 OutPoint.null

/-- C6 (code bug): on an empty spending keyspace — or more generally whenever no
record lies at or beyond the seek point — Database::get_spending panics on
.next().unwrap() (the outer none) instead of returning the claimed None; a
matching record does yield its height. -/
theorem get_spending_panics_when_no_record :
    Database.get_spending [] ⟨1, 0⟩ = none ∧
    Database.get_spending [outpoint_to_key ⟨1, 0⟩ ++ toBeBytes 4 7] ⟨1, 0⟩ =
      some (some 7) := by
  decide

/-- C9 (counterexample): a 503 response produces exactly one request effect —
the call is not retried internally — together with the one-second sleep and the
classified error, exactly like any other non-200 status apart from the sleep. -/
theorem status_503_not_retried :
    (node_call (503, (0 : Nat))).1.count Eff.request = 1 ∧
    ¬ 2 ≤ (node_call (503, (0 : Nat))).1.count Eff.request ∧
    (node_call (503, (0 : Nat))).2 = Except.error 503 := by
  refine ⟨by decide, by decide, rfl⟩

/-- C9 (amended): every non-200 status makes the node-client call return the
classified error after exactly one request, with no internal retry; 503 is
special only in that a sleep effect precedes the return. -/
theorem non_200_single_request_sleep_iff_503 {α : Type} (status : Nat) (body : α)
    (h : status ≠ 200) :
    node_call (status, body) =
      (Eff.request :: (if status = 503 then [Eff.sleep] else []),
       Except.error status) := by
  by_cases h503 : status = 503 <;> simp [node_call, check_status, h, h503]

/-- Witness for the amended C9 at status 404. -/
theorem non_200_single_request_sleep_iff_503_witness :
    (404 : Nat) ≠ 200 ∧
    node_call (404, (7 : Nat)) =
      (Eff.request :: (if (404 : Nat) = 503 then [Eff.sleep] else []),
       Except.error 404) :=
  ⟨by decide, non_200_single_request_sleep_iff_503 404 7 (by decide)⟩

/-- C1: for every cache state, node model and non-genesis txid, SharedState::tx
fetches exactly the missing pieces, as described case by case by txCaseAnalysis. -/
theorem tx_cache_fetch_discipline (st : SState) (o : Node) (txid : Nat)
    (hg : txid ≠ genesisTxid) : txCaseAnalysis st o txid := by
  refine ⟨?_, ?_, ?_, ?_, ?_, ?_⟩
  · intro t ht
    simp [SharedState.tx, ht]
  · intro hm
    constructor
    · cases hb : o.txBin txid <;>
        simp [SharedState.tx, hm, rpcTx.call_raw, hg, hb]
    · intro t hbt
      simp [SharedState.tx, hm, rpcTx.call_raw, hg, hbt]
  · intro t bh ht hbh
    simp [SharedState.tx, ht, hbh]
  · intro t ht hbn
    refine ⟨?_, ?_, ?_⟩
    · cases hj : o.txJsonHash txid with
      | ok v =>
        cases v <;> simp [SharedState.tx, ht, hbn, rpcTx.call_json_only_hash, hg, hj]
      | error e =>
        simp [SharedState.tx, ht, hbn, rpcTx.call_json_only_hash, hg, hj]
    · intro bh hj
      simp [SharedState.tx, ht, hbn, rpcTx.call_json_only_hash, hg, hj]
    · intro hj
      simp [SharedState.tx, ht, hbn, rpcTx.call_json_only_hash, hg, hj]
  · intro bh hm hbh
    constructor
    · cases hb : o.txBin txid <;>
        simp [SharedState.tx, hm, hbh, rpcTx.call_raw, hg, hb]
    · intro t hbt
      simp [SharedState.tx, hm, hbh, rpcTx.call_raw, hg, hbt]
  · intro hm hbn
    constructor
    · cases hj : o.txJsonFull txid with
      | ok v =>
        obtain ⟨bh, t⟩ := v
        cases bh <;>
          simp [SharedState.tx, hm, hbn, SharedState.tx_fetch_and_cache,
            rpcTx.call_parse_json, rpcTx.call_json, hg, hj]
      | error e =>
        cases e <;>
          simp [SharedState.tx, hm, hbn, SharedState.tx_fetch_and_cache,
            rpcTx.call_parse_json, rpcTx.call_json, hg, hj]
    · intro bh t hj
      simp [SharedState.tx, hm, hbn, SharedState.tx_fetch_and_cache,
        rpcTx.call_parse_json, rpcTx.call_json, hg, hj]

/-- Witness for C1 at the empty caches and a concrete txid. -/
theorem tx_cache_fetch_discipline_witness :
    (5 : Nat) ≠ genesisTxid ∧ txCaseAnalysis ⟨[], []⟩ sampleNode 5 :=
  ⟨by decide, tx_cache_fetch_discipline ⟨[], []⟩ sampleNode 5 (by decide)⟩

/-- C7 (counterexample): with a cold bytes cache, SharedState::tx on the genesis
coinbase with needs_block_hash = false returns the GenesisTx error — it does not
yield the synthesized transaction — though still without any node call, even
against a node model that could have answered. -/
theorem genesis_tx_no_block_hash_path_errors :
    (SharedState.tx ⟨[], []⟩ sampleNode genesisTxid false).1 =
      Except.error Err.genesisTx ∧
    (SharedState.tx ⟨[], []⟩ sampleNode genesisTxid false).2.2 = [] := by
  refine ⟨by decide, by decide⟩

/-- C7 (amended): with needs_block_hash = true and both caches missing the
genesis coinbase, SharedState::tx yields the locally synthesized serialized
genesis transaction together with the genesis block hash, caches both, and
issues no node call. -/
theorem genesis_tx_synthesized_with_block_hash (st : SState) (o : Node)
    (h1 : mlookup st.txs genesisTxid = none)
    (h2 : mlookup st.tx_in_block (truncTxid genesisTxid) = none) :
    SharedState.tx st o genesisTxid true =
      (Except.ok (genesisSerTx, some genesisBlockHash),
       { st with txs := minsert st.txs genesisTxid genesisSerTx,
                 tx_in_block :=
                   minsert st.tx_in_block (truncTxid genesisTxid) genesisBlockHash },
       []) := by
  simp [SharedState.tx, h1, h2, SharedState.tx_fetch_and_cache,
    rpcTx.call_parse_json, rpcTx.call_json]

/-- Witness for the amended C7 at the empty caches, against a node model whose
every request fails: the synthesis uses no node response. -/
theorem genesis_tx_synthesized_with_block_hash_witness :
    mlookup (⟨[], []⟩ : SState).txs genesisTxid = none ∧
    mlookup (⟨[], []⟩ : SState).tx_in_block (truncTxid genesisTxid) = none ∧
    SharedState.tx ⟨[], []⟩ failNode genesisTxid true =
      (Except.ok (genesisSerTx, some genesisBlockHash),
       { (⟨[], []⟩ : SState) with
           txs := minsert (⟨[], []⟩ : SState).txs genesisTxid genesisSerTx,
           tx_in_block :=
             minsert (⟨[], []⟩ : SState).tx_in_block (truncTxid genesisTxid)
               genesisBlockHash },
       []) :=
  ⟨rfl, rfl, genesis_tx_synthesized_with_block_hash ⟨[], []⟩ failNode rfl rfl⟩

/-- Helper: the result component of blocks_from_heights when every in-range hash
is servable. -/
theorem blocks_from_heights_result (v : List Nat) (o : Node) :
    ∀ heights : List Nat,
      (∀ h ∈ heights, ∀ bh, v[h]? = some bh → ∃ b, o.blockBin bh = Except.ok b) →
      (blocks_from_heights v o heights).1 =
        Except.ok (heights.filterMap (fun h =>
          v[h]?.bind (fun bh =>
            match o.blockBin bh with
            | Except.ok b => some (bh, b)
            | Except.error _ => none))) := by
  intro heights
  induction heights with
  | nil => intro _; simp [blocks_from_heights]
  | cons h rest ih =>
    intro hok
    have ihr := ih (fun h2 hm => hok h2 (List.mem_cons_of_mem h hm))
    cases hv : v[h]? with
    | none => simpa [blocks_from_heights, hv] using ihr
    | some bh =>
      obtain ⟨b, hb⟩ := hok h (List.mem_cons_self h rest) bh hv
      rcases hrec : blocks_from_heights v o rest with ⟨r, c⟩
      rw [hrec] at ihr
      simp only at ihr
      subst ihr
      simp [blocks_from_heights, hv, hb, hrec]

/-- Helper: an in-range sentinel height leads to a block request for the
all-zeros hash, when every in-range hash is servable. -/
theorem blocks_from_heights_sentinel_call (v : List Nat) (o : Node) :
    ∀ heights : List Nat,
      (∀ h ∈ heights, ∀ bh, v[h]? = some bh → ∃ b, o.blockBin bh = Except.ok b) →
      ∀ h ∈ heights, v[h]? = some 0 →
        NodeCall.blockBin 0 ∈ (blocks_from_heights v o heights).2 := by
  intro heights
  induction heights with
  | nil => intro _ h hm; cases hm
  | cons h0 rest ih =>
    intro hok h hm hv
    have ihr := ih (fun h2 hm2 => hok h2 (List.mem_cons_of_mem h0 hm2))
    rcases List.mem_cons.mp hm with rfl | hmr
    · obtain ⟨b, hb⟩ := hok h (List.mem_cons_self h rest) 0 hv
      rcases hrec : blocks_from_heights v o rest with ⟨r, c⟩
      cases r <;> simp [blocks_from_heights, hv, hb, hrec]
    · have hin := ihr h hmr hv
      cases hv0 : v[h0]? with
      | none => simpa [blocks_from_heights, hv0] using hin
      | some bh0 =>
        obtain ⟨b0, hb0⟩ := hok h0 (List.mem_cons_self h0 rest) bh0 hv0
        rcases hrec : blocks_from_heights v o rest with ⟨r, c⟩
        rw [hrec] at hin
        cases r <;> simp [blocks_from_heights, hv0, hb0, hrec] <;>
          exact Or.inr (by simpa using hin)

/-- C10: blocks_from_heights never fails because a height is unknown — every
out-of-range height is silently omitted and the result lists exactly the
in-range entries in order — and an in-range all-zeros sentinel entry is not
treated as missing: the sentinel hash itself is sent to the node as a block
request. By contrast SharedState::hash checks the sentinel: at an in-range
sentinel entry it issues a block-hash-by-height request instead of returning the
stored hash. -/
theorem blocks_from_heights_skips_unknown_uses_sentinel (v : List Nat) (o : Node)
    (heights : List Nat) :
    blocksFromHeightsOk v o heights ∧
    (∀ h, h < v.length → v.getD h 0 = 0 →
      (SharedState.hash v o h).2.2 = [NodeCall.blockHashByHeight h]) := by
  constructor
  · intro hok
    exact ⟨blocks_from_heights_result v o heights hok,
      blocks_from_heights_sentinel_call v o heights hok⟩
  · intro h hlt hz
    have hres : reserve v h = v := by
      simp [reserve, Nat.not_le_of_lt hlt]
    cases hb : o.blockHashByHeight h <;>
      simp only [SharedState.hash, hres, hz, hb, ne_eq, not_true_eq_false,
        if_false, ite_false]

/-- Witness for C10 at a concrete height vector: height 0 holds hash 9, height 1
holds the sentinel, height 5 is out of range. -/
theorem blocks_from_heights_skips_unknown_uses_sentinel_witness :
    blocksFromHeightsOk [9, 0] sampleNode [0, 1, 5] ∧
    (∀ h, h < [9, 0].length → [9, 0].getD h 0 = 0 →
      (SharedState.hash [9, 0] sampleNode h).2.2 = [NodeCall.blockHashByHeight h]) :=
  blocks_from_heights_skips_unknown_uses_sentinel [9, 0] sampleNode [0, 1, 5]

/-- Helper: with fill_missing set, the per-input loop of fetch_prevouts always
succeeds, producing one prevout per input. -/
theorem fetch_prevouts_go_fill_total (o : Node) :
    ∀ (inputs : List OutPoint) (st : SState),
      ∃ l st2 c2, fetch_prevouts_go o true st inputs = (Except.ok l, st2, c2) ∧
        l.length = inputs.length := by
  intro inputs
  induction inputs with
  | nil => intro st; exact ⟨[], st, [], rfl, rfl⟩
  | cons i rest ih =>
    intro st
    by_cases hz : i.txid ≠ 0
    · rcases htx : SharedState.tx st o i.txid false with ⟨r, st1, c1⟩
      cases r with
      | ok p =>
        obtain ⟨l, st2, c2, hgo, hlen⟩ := ih st1
        refine ⟨o.txOut p.1 i.vout :: l, st2, c1 ++ c2, ?_, by simp [hlen]⟩
        simp [fetch_prevouts_go, hz, htx, hgo]
      | error e =>
        obtain ⟨l, st2, c2, hgo, hlen⟩ := ih st1
        refine ⟨TxOutV.null :: l, st2, c1 ++ c2, ?_, by simp [hlen]⟩
        simp [fetch_prevouts_go, hz, htx, hgo]
    · obtain ⟨l, st2, c2, hgo, hlen⟩ := ih st
      refine ⟨TxOutV.null :: l, st2, c2, ?_, by simp [hlen]⟩
      simp [fetch_prevouts_go, hz, hgo]

/-- Helper: a per-input run that succeeds with fill_missing unset runs
identically with it set — the flag only matters at a fetch failure. -/
theorem fetch_prevouts_go_true_of_false_ok (o : Node) :
    ∀ (inputs : List OutPoint) (st : SState) (l : List TxOutV) (st2 : SState)
      (c2 : List NodeCall),
      fetch_prevouts_go o false st inputs = (Except.ok l, st2, c2) →
      fetch_prevouts_go o true st inputs = (Except.ok l, st2, c2) := by
  intro inputs
  induction inputs with
  | nil => intro st l st2 c2 h; exact h
  | cons i rest ih =>
    intro st l st2 c2 h
    by_cases hz : i.txid ≠ 0
    · rcases htx : SharedState.tx st o i.txid false with ⟨r, stA, cA⟩
      cases r with
      | ok p =>
        rcases hrec : fetch_prevouts_go o false stA rest with ⟨rr, stB, cB⟩
        cases rr with
        | ok lp =>
          simp [fetch_prevouts_go, hz, htx, hrec] at h
          obtain ⟨rfl, rfl, rfl⟩ := h
          have ihh := ih stA lp stB cB hrec
          simp [fetch_prevouts_go, hz, htx, ihh]
        | error e =>
          simp [fetch_prevouts_go, hz, htx, hrec] at h
      | error e0 =>
        simp [fetch_prevouts_go, hz, htx] at h
    · rcases hrec : fetch_prevouts_go o false st rest with ⟨rr, stB, cB⟩
      cases rr with
      | ok lp =>
        simp [fetch_prevouts_go, hz, hrec] at h
        obtain ⟨rfl, rfl, rfl⟩ := h
        have ihh := ih st lp stB cB hrec
        simp [fetch_prevouts_go, hz, ihh]
      | error e =>
        simp [fetch_prevouts_go, hz, hrec] at h

/-- Helper: a successful per-input run composes with the run of the remaining
inputs from its final state. -/
theorem fetch_prevouts_go_append_ok (o : Node) (fm : Bool) :
    ∀ (pre : List OutPoint) (st : SState) (l : List TxOutV) (st1 : SState)
      (c1 : List NodeCall) (suf : List OutPoint) (l2 : List TxOutV) (st2 : SState)
      (c2 : List NodeCall),
      fetch_prevouts_go o fm st pre = (Except.ok l, st1, c1) →
      fetch_prevouts_go o fm st1 suf = (Except.ok l2, st2, c2) →
      fetch_prevouts_go o fm st (pre ++ suf) =
        (Except.ok (l ++ l2), st2, c1 ++ c2) := by
  intro pre
  induction pre with
  | nil =>
    intro st l st1 c1 suf l2 st2 c2 h1 h2
    simp only [fetch_prevouts_go, Prod.mk.injEq, Except.ok.injEq] at h1
    obtain ⟨rfl, rfl, rfl⟩ := h1
    simpa using h2
  | cons i pre2 ih =>
    intro st l st1 c1 suf l2 st2 c2 h1 h2
    by_cases hz : i.txid ≠ 0
    · rcases htx : SharedState.tx st o i.txid false with ⟨r, stA, cA⟩
      cases r with
      | ok p =>
        rcases hrec : fetch_prevouts_go o fm stA pre2 with ⟨rr, stB, cB⟩
        cases rr with
        | ok lp =>
          simp [fetch_prevouts_go, hz, htx, hrec] at h1
          obtain ⟨rfl, rfl, rfl⟩ := h1
          have ihh := ih stA lp stB cB suf l2 st2 c2 hrec h2
          rw [List.cons_append]
          simp [fetch_prevouts_go, hz, htx, ihh]
        | error e =>
          simp [fetch_prevouts_go, hz, htx, hrec] at h1
      | error e0 =>
        cases fm with
        | false => simp [fetch_prevouts_go, hz, htx] at h1
        | true =>
          rcases hrec : fetch_prevouts_go o true stA pre2 with ⟨rr, stB, cB⟩
          cases rr with
          | ok lp =>
            simp [fetch_prevouts_go, hz, htx, hrec] at h1
            obtain ⟨rfl, rfl, rfl⟩ := h1
            have ihh := ih stA lp stB cB suf l2 st2 c2 hrec h2
            rw [List.cons_append]
            simp [fetch_prevouts_go, hz, htx, ihh]
          | error e2 =>
            simp [fetch_prevouts_go, hz, htx, hrec] at h1
    · rcases hrec : fetch_prevouts_go o fm st pre2 with ⟨rr, stB, cB⟩
      cases rr with
      | ok lp =>
        simp [fetch_prevouts_go, hz, hrec] at h1
        obtain ⟨rfl, rfl, rfl⟩ := h1
        have ihh := ih st lp stB cB suf l2 st2 c2 hrec h2
        rw [List.cons_append]
        simp [fetch_prevouts_go, hz, ihh]
      | error e =>
        simp [fetch_prevouts_go, hz, hrec] at h1

/-- Helper: a successful per-input run followed by a failing run of the
remaining inputs makes the whole run fail with that error. -/
theorem fetch_prevouts_go_append_error (o : Node) (fm : Bool) :
    ∀ (pre : List OutPoint) (st : SState) (l : List TxOutV) (st1 : SState)
      (c1 : List NodeCall) (suf : List OutPoint) (e : Err) (st2 : SState)
      (c2 : List NodeCall),
      fetch_prevouts_go o fm st pre = (Except.ok l, st1, c1) →
      fetch_prevouts_go o fm st1 suf = (Except.error e, st2, c2) →
      fetch_prevouts_go o fm st (pre ++ suf) = (Except.error e, st2, c1 ++ c2) := by
  intro pre
  induction pre with
  | nil =>
    intro st l st1 c1 suf e st2 c2 h1 h2
    simp only [fetch_prevouts_go, Prod.mk.injEq, Except.ok.injEq] at h1
    obtain ⟨rfl, rfl, rfl⟩ := h1
    simpa using h2
  | cons i pre2 ih =>
    intro st l st1 c1 suf e st2 c2 h1 h2
    by_cases hz : i.txid ≠ 0
    · rcases htx : SharedState.tx st o i.txid false with ⟨r, stA, cA⟩
      cases r with
      | ok p =>
        rcases hrec : fetch_prevouts_go o fm stA pre2 with ⟨rr, stB, cB⟩
        cases rr with
        | ok lp =>
          simp [fetch_prevouts_go, hz, htx, hrec] at h1
          obtain ⟨rfl, rfl, rfl⟩ := h1
          have ihh := ih stA lp stB cB suf e st2 c2 hrec h2
          rw [List.cons_append]
          simp [fetch_prevouts_go, hz, htx, ihh]
        | error e3 =>
          simp [fetch_prevouts_go, hz, htx, hrec] at h1
      | error e0 =>
        cases fm with
        | false => simp [fetch_prevouts_go, hz, htx] at h1
        | true =>
          rcases hrec : fetch_prevouts_go o true stA pre2 with ⟨rr, stB, cB⟩
          cases rr with
          | ok lp =>
            simp [fetch_prevouts_go, hz, htx, hrec] at h1
            obtain ⟨rfl, rfl, rfl⟩ := h1
            have ihh := ih stA lp stB cB suf e st2 c2 hrec h2
            rw [List.cons_append]
            simp [fetch_prevouts_go, hz, htx, ihh]
          | error e2 =>
            simp [fetch_prevouts_go, hz, htx, hrec] at h1
    · rcases hrec : fetch_prevouts_go o fm st pre2 with ⟨rr, stB, cB⟩
      cases rr with
      | ok lp =>
        simp [fetch_prevouts_go, hz, hrec] at h1
        obtain ⟨rfl, rfl, rfl⟩ := h1
        have ihh := ih st lp stB cB suf e st2 c2 hrec h2
        rw [List.cons_append]
        simp [fetch_prevouts_go, hz, ihh]
      | error e3 =>
        simp [fetch_prevouts_go, hz, hrec] at h1

/-- C8: in fetch_prevouts, when fetching the parent transaction of a
(non-coinbase) input at any position fails — the inputs split as pre, the
failing input i and the rest, with the loop having processed pre successfully
from the post-preload state — fill_missing = true tolerates the failure: the
call succeeds and the returned prevout list carries the pre prevouts, then
TxOut::NULL at the failing input's position (index pre.length), then one
prevout per remaining input; fill_missing = false propagates the same fetch
error from that position and returns no prevout list. -/
theorem fetch_prevouts_fill_missing_tolerates (st : SState) (o : Node)
    (pre : List OutPoint) (i : OutPoint) (rest : List OutPoint)
    (lpre : List TxOutV) (st1 : SState) (c1 : List NodeCall) (e : Err)
    (hcb : i.txid ≠ 0)
    (hpre : fetch_prevouts_go o false
        (fetch_prevouts_state st o (pre ++ i :: rest)) pre =
      (Except.ok lpre, st1, c1))
    (hfail : (SharedState.tx st1 o i.txid false).1 = Except.error e) :
    (∃ ltail, (fetch_prevouts st o (pre ++ i :: rest) true).1 =
        Except.ok (lpre ++ TxOutV.null :: ltail) ∧
        lpre.length = pre.length ∧ ltail.length = rest.length) ∧
    (fetch_prevouts st o (pre ++ i :: rest) false).1 = Except.error e := by
  rcases htx : SharedState.tx st1 o i.txid false with ⟨r, stA, cA⟩
  rw [htx] at hfail
  simp only at hfail
  subst hfail
  have hpreT := fetch_prevouts_go_true_of_false_ok o pre _ lpre st1 c1 hpre
  have hlen : lpre.length = pre.length := by
    obtain ⟨l2, st2, c2, hgo2, hlen2⟩ := fetch_prevouts_go_fill_total o pre
      (fetch_prevouts_state st o (pre ++ i :: rest))
    rw [hpreT] at hgo2
    injection hgo2 with hA hBC
    injection hA with hA2
    rw [hA2]
    exact hlen2
  constructor
  · obtain ⟨ltail, st2, c2, hgo, hlt⟩ := fetch_prevouts_go_fill_total o rest stA
    have hstep : fetch_prevouts_go o true st1 (i :: rest) =
        (Except.ok (TxOutV.null :: ltail), st2, cA ++ c2) := by
      simp [fetch_prevouts_go, hcb, htx, hgo]
    have happ := fetch_prevouts_go_append_ok o true pre _ lpre st1 c1 (i :: rest)
      (TxOutV.null :: ltail) st2 (cA ++ c2) hpreT hstep
    refine ⟨ltail, ?_, hlen, hlt⟩
    simp [fetch_prevouts, happ]
  · have hstep : fetch_prevouts_go o false st1 (i :: rest) =
        (Except.error e, stA, cA) := by
      simp [fetch_prevouts_go, hcb, htx]
    have happ := fetch_prevouts_go_append_error o false pre _ lpre st1 c1
      (i :: rest) e stA cA hpre hstep
    simp [fetch_prevouts, happ]

/-- Witness for C8 at a two-input transaction whose second parent the node
cannot serve: input (9,0) is fetched (during the preload) and yields its
prevout, input (5,0) fails and yields TxOut::NULL at index 1 under
fill_missing, and aborts the call without it. -/
theorem fetch_prevouts_fill_missing_tolerates_witness :
    ((⟨5, 0⟩ : OutPoint).txid ≠ 0) ∧
    (fetch_prevouts_go mixedNode false
        (fetch_prevouts_state ⟨[], []⟩ mixedNode [⟨9, 0⟩, ⟨5, 0⟩]) [⟨9, 0⟩] =
      (Except.ok [⟨1009, 0⟩], ⟨[(9, 1009)], []⟩, [])) ∧
    ((SharedState.tx ⟨[(9, 1009)], []⟩ mixedNode (⟨5, 0⟩ : OutPoint).txid
        false).1 = Except.error Err.notFound) ∧
    ((∃ ltail, (fetch_prevouts ⟨[], []⟩ mixedNode [⟨9, 0⟩, ⟨5, 0⟩] true).1 =
        Except.ok ([⟨1009, 0⟩] ++ TxOutV.null :: ltail) ∧
        ([(⟨1009, 0⟩ : TxOutV)]).length = ([(⟨9, 0⟩ : OutPoint)]).length ∧
        ltail.length = ([] : List OutPoint).length) ∧
     (fetch_prevouts ⟨[], []⟩ mixedNode [⟨9, 0⟩, ⟨5, 0⟩] false).1 =
       Except.error Err.notFound) :=
  ⟨by decide, by decide, by decide,
   fetch_prevouts_fill_missing_tolerates ⟨[], []⟩ mixedNode [⟨9, 0⟩] ⟨5, 0⟩ []
     [⟨1009, 0⟩] ⟨[(9, 1009)], []⟩ [] Err.notFound (by decide) (by decide)
     (by decide)⟩

/-- Helper: the keys of a map after a replacing insert. -/
theorem keyMem_minsert {α β : Type} [DecidableEq α] (l : List (α × β)) (k a : α)
    (v : β) : (∃ b, (a, b) ∈ minsert l k v) ↔ a = k ∨ ∃ b, (a, b) ∈ l := by
  induction l with
  | nil =>
    constructor
    · rintro ⟨b, hb⟩
      simp only [minsert, List.mem_singleton, Prod.mk.injEq] at hb
      exact Or.inl hb.1
    · rintro (rfl | ⟨b, hb⟩)
      · exact ⟨v, by simp [minsert]⟩
      · cases hb
  | cons kv rest ih =>
    obtain ⟨k0, v0⟩ := kv
    by_cases hk : k0 = k
    · subst hk
      simp only [minsert, if_pos rfl]
      constructor
      · rintro ⟨b, hb⟩
        rcases List.mem_cons.mp hb with hb | hb
        · exact Or.inl (congrArg Prod.fst hb)
        · exact Or.inr ⟨b, List.mem_cons_of_mem _ hb⟩
      · rintro (rfl | ⟨b, hb⟩)
        · exact ⟨v, List.mem_cons_self _ _⟩
        · rcases List.mem_cons.mp hb with hb | hb
          · injection hb with h1 h2
            subst h1
            exact ⟨v, List.mem_cons_self _ _⟩
          · exact ⟨b, List.mem_cons_of_mem _ hb⟩
    · simp only [minsert, if_neg hk]
      constructor
      · rintro ⟨b, hb⟩
        rcases List.mem_cons.mp hb with hb | hb
        · cases hb
          exact Or.inr ⟨v0, List.mem_cons_self _ _⟩
        · rcases ih.mp ⟨b, hb⟩ with h | ⟨b2, hb2⟩
          · exact Or.inl h
          · exact Or.inr ⟨b2, List.mem_cons_of_mem _ hb2⟩
      · rintro (rfl | ⟨b, hb⟩)
        · obtain ⟨b2, hb2⟩ := ih.mpr (Or.inl rfl)
          exact ⟨b2, List.mem_cons_of_mem _ hb2⟩
        · rcases List.mem_cons.mp hb with hb | hb
          · injection hb with h1 h2
            subst h1
            exact ⟨v0, List.mem_cons_self _ _⟩
          · obtain ⟨b2, hb2⟩ := ih.mpr (Or.inr ⟨b, hb⟩)
            exact ⟨b2, List.mem_cons_of_mem _ hb2⟩

/-- Helper: an entry of a map after a replacing insert is the inserted pair or
an original entry. -/
theorem mem_minsert_elim {α β : Type} [DecidableEq α] (l : List (α × β))
    (k a : α) (v b : β) (h : (a, b) ∈ minsert l k v) :
    (a = k ∧ b = v) ∨ (a, b) ∈ l := by
  induction l with
  | nil =>
    simp only [minsert, List.mem_singleton, Prod.mk.injEq] at h
    exact Or.inl h
  | cons kv rest ih =>
    obtain ⟨k0, v0⟩ := kv
    by_cases hk : k0 = k
    · subst hk
      simp only [minsert, if_pos rfl] at h
      rcases List.mem_cons.mp h with h | h
      · cases h
        exact Or.inl ⟨rfl, rfl⟩
      · exact Or.inr (List.mem_cons_of_mem _ h)
    · simp only [minsert, if_neg hk] at h
      rcases List.mem_cons.mp h with h | h
      · cases h
        exact Or.inr (List.mem_cons_self _ _)
      · rcases ih h with h | h
        · exact Or.inl h
        · exact Or.inr (List.mem_cons_of_mem _ h)

/-- Helper: inserting the spending entries of a transaction never removes a key. -/
theorem keyMem_insertSpendingFrom_mono (t : Nat) (op : OutPoint) :
    ∀ (ps : List OutPoint) (i : Nat) (sp : List (OutPoint × SpendPoint)),
      (∃ s, (op, s) ∈ sp) → ∃ s, (op, s) ∈ insertSpendingFrom t i ps sp := by
  intro ps
  induction ps with
  | nil => intro i sp h; exact h
  | cons p rest ih =>
    intro i sp h
    exact ih (i + 1) (minsert sp p ⟨t, i⟩)
      ((keyMem_minsert sp p op ⟨t, i⟩).mpr (Or.inr h))

/-- Helper: after inserting the spending entries of a transaction, each of its
input outpoints is a key. -/
theorem keyMem_insertSpendingFrom_self (t : Nat) (op : OutPoint) :
    ∀ (ps : List OutPoint) (i : Nat) (sp : List (OutPoint × SpendPoint)),
      op ∈ ps → ∃ s, (op, s) ∈ insertSpendingFrom t i ps sp := by
  intro ps
  induction ps with
  | nil => intro i sp h; cases h
  | cons p rest ih =>
    intro i sp h
    rcases List.mem_cons.mp h with rfl | h
    · exact keyMem_insertSpendingFrom_mono t op rest (i + 1) _
        ((keyMem_minsert sp op op ⟨t, i⟩).mpr (Or.inl rfl))
    · exact ih (i + 1) _ h

/-- Helper: an entry present after inserting a transaction's spending entries is
an original entry or records that transaction spending one of its inputs. -/
theorem mem_insertSpendingFrom_elim (t : Nat) (op : OutPoint) (s : SpendPoint) :
    ∀ (ps : List OutPoint) (i : Nat) (sp : List (OutPoint × SpendPoint)),
      (op, s) ∈ insertSpendingFrom t i ps sp →
      (op, s) ∈ sp ∨ (op ∈ ps ∧ s.txid = t) := by
  intro ps
  induction ps with
  | nil => intro i sp h; exact Or.inl h
  | cons p rest ih =>
    intro i sp h
    rcases ih (i + 1) (minsert sp p ⟨t, i⟩) h with h | ⟨h1, h2⟩
    · rcases mem_minsert_elim sp p op ⟨t, i⟩ s h with ⟨rfl, rfl⟩ | h
      · exact Or.inr ⟨List.mem_cons_self _ _, rfl⟩
      · exact Or.inl h
    · exact Or.inr ⟨List.mem_cons_of_mem _ h1, h2⟩

/-- Helper: the processing loop never removes a spending key. -/
theorem runNew_sp_mono (o : MempoolOracle) (budget : Option Nat) (op : OutPoint) :
    ∀ (ts : List Nat) (done : Nat) (sp : List (OutPoint × SpendPoint))
      (r : List TWFC),
      (∃ s, (op, s) ∈ sp) → ∃ s, (op, s) ∈ (runNew o budget ts done sp r).1 := by
  intro ts
  induction ts with
  | nil => intro done sp r h; exact h
  | cons t rest ih =>
    intro done sp r h
    by_cases hf : o.fetchOk t
    · have h1 := keyMem_insertSpendingFrom_mono t op (o.inputsOf t) 0 sp h
      by_cases hall : (o.inputsOf t).all (fun p => o.fetchOk p.txid)
      · by_cases hb : budget = some (done + 1)
        · simpa [runNew, hf, hall, hb] using h1
        · simpa [runNew, hf, hall, hb] using ih (done + 1) _ _ h1
      · simpa [runNew, hf, hall] using ih done _ _ h1
    · simpa [runNew, hf] using ih done sp r h

/-- Helper: with the budget never expiring, every processed transaction's input
outpoints end up as spending keys. -/
theorem runNew_covers (o : MempoolOracle) (op : OutPoint) (t : Nat) :
    ∀ (ts : List Nat) (done : Nat) (sp : List (OutPoint × SpendPoint))
      (r : List TWFC),
      t ∈ ts → o.fetchOk t = true → op ∈ o.inputsOf t →
      ∃ s, (op, s) ∈ (runNew o none ts done sp r).1 := by
  intro ts
  induction ts with
  | nil => intro done sp r h; cases h
  | cons t0 rest ih =>
    intro done sp r hmem hf hop
    rcases List.mem_cons.mp hmem with rfl | hmem
    · have h1 := keyMem_insertSpendingFrom_self t op (o.inputsOf t) 0 sp hop
      by_cases hall : (o.inputsOf t).all (fun p => o.fetchOk p.txid)
      · simpa [runNew, hf, hall] using runNew_sp_mono o none op rest (done + 1) _ _ h1
      · simpa [runNew, hf, hall] using runNew_sp_mono o none op rest done _ _ h1
    · by_cases hf0 : o.fetchOk t0
      · by_cases hall : (o.inputsOf t0).all (fun p => o.fetchOk p.txid)
        · simpa [runNew, hf0, hall] using ih (done + 1) _ _ hmem hf hop
        · simpa [runNew, hf0, hall] using ih done _ _ hmem hf hop
      · simpa [runNew, hf0] using ih done sp r hmem hf hop

/-- Helper: a spending entry present after the processing loop is an original
entry or records a processed transaction spending one of its inputs. -/
theorem runNew_elim (o : MempoolOracle) (budget : Option Nat) (op : OutPoint)
    (s : SpendPoint) :
    ∀ (ts : List Nat) (done : Nat) (sp : List (OutPoint × SpendPoint))
      (r : List TWFC),
      (op, s) ∈ (runNew o budget ts done sp r).1 →
      (op, s) ∈ sp ∨ ∃ t ∈ ts, s.txid = t ∧ op ∈ o.inputsOf t := by
  intro ts
  induction ts with
  | nil => intro done sp r h; exact Or.inl h
  | cons t rest ih =>
    intro done sp r h
    by_cases hf : o.fetchOk t
    · have step :
          ∀ h1 : (op, s) ∈ insertSpendingFrom t 0 (o.inputsOf t) sp,
          (op, s) ∈ sp ∨ ∃ t2 ∈ t :: rest, s.txid = t2 ∧ op ∈ o.inputsOf t2 := by
        intro h1
        rcases mem_insertSpendingFrom_elim t op s (o.inputsOf t) 0 sp h1 with h1 | ⟨h1, h2⟩
        · exact Or.inl h1
        · exact Or.inr ⟨t, List.mem_cons_self _ _, h2, h1⟩
      by_cases hall : (o.inputsOf t).all (fun p => o.fetchOk p.txid)
      · by_cases hb : budget = some (done + 1)
        · rw [runNew] at h
          simp only [hf, if_true, hall, hb, if_pos rfl] at h
          exact step h
        · rw [runNew] at h
          simp only [hf, if_true, hall, if_neg hb] at h
          rcases ih (done + 1) _ _ h with h | ⟨t2, ht2, h2, h3⟩
          · exact step h
          · exact Or.inr ⟨t2, List.mem_cons_of_mem _ ht2, h2, h3⟩
      · rw [runNew] at h
        simp only [hf, if_true, hall] at h
        rcases ih done _ _ h with h | ⟨t2, ht2, h2, h3⟩
        · exact step h
        · exact Or.inr ⟨t2, List.mem_cons_of_mem _ ht2, h2, h3⟩
    · rw [runNew] at h
      simp only [hf] at h
      rcases ih done _ _ h with h | ⟨t2, ht2, h2, h3⟩
      · exact Or.inl h
      · exact Or.inr ⟨t2, List.mem_cons_of_mem _ ht2, h2, h3⟩

/-- C2 (counterexample): one completed detail-loop cycle from the empty state,
over a mempool holding transaction 7 whose bytes fetch fails during the cycle:
transaction 7 is still published in the contents set, but none of its input
outpoints is a spending-map key, so the claimed key-set equality fails. -/
theorem spending_map_misses_unfetched_tx :
    ¬ spendingInvariant (update_mempool_details_cycle cexMempoolOracle none [7] mstate0)
        cexMempoolOracle.inputsOf := by
  intro hinv
  have h := (hinv ⟨1, 0⟩).mpr ⟨7, by decide, by decide⟩
  obtain ⟨s, hs⟩ := h
  have hsp :
      (update_mempool_details_cycle cexMempoolOracle none [7] mstate0).spending = [] := by
    decide
  rw [hsp] at hs
  cases hs

/-- C2 (amended): after a completed detail-loop cycle in which every mempool
transaction's bytes fetch succeeds and the one-minute budget is never hit,
started from a well-formed state — every spending entry records an actual input
of its transaction, and every rate-index transaction's inputs are keys mapping
to it, both true of the empty initial state — the spending-map key set equals
the union of the input outpoints of the transactions in the published contents
set. (The counterexample shows the equality can fail without the fetch-success
proviso; the abandoned backlog of a budget break loses keys the same way.) -/
theorem spending_map_keys_match_contents (o : MempoolOracle) (mempool : List Nat)
    (st : MState)
    (hWFentries : ∀ kv ∈ st.spending, kv.1 ∈ o.inputsOf kv.2.txid)
    (hWFrates : ∀ e ∈ st.rates, ∀ op ∈ o.inputsOf e.txid,
      ∃ s, (op, s) ∈ st.spending ∧ s.txid = e.txid)
    (hfetch : ∀ t ∈ mempool, o.fetchOk t = true) :
    spendingInvariant (update_mempool_details_cycle o none mempool st)
      o.inputsOf := by
  intro op
  simp only [update_mempool_details_cycle, spendingInvariant]
  constructor
  · rintro ⟨s, hs⟩
    rcases runNew_elim o none op s _ 0 _ _ hs with hsp | ⟨t, htm, _, hop⟩
    · have hmem := List.mem_filter.mp hsp
      refine ⟨s.txid, ?_, hWFentries (op, s) hmem.1⟩
      simpa using hmem.2
    · have hmem := List.mem_filter.mp htm
      exact ⟨t, hmem.1, hop⟩
  · rintro ⟨t, htmem, hop⟩
    by_cases hid : t ∈ (st.rates.filter (fun e => mempool.contains e.txid)).map TWFC.txid
    · rcases List.mem_map.mp hid with ⟨e, heF, rfl⟩
      have heR := List.mem_filter.mp heF
      obtain ⟨s, hsSp, hsTx⟩ := hWFrates e heR.1 op hop
      have hsF : (op, s) ∈ st.spending.filter (fun kv => mempool.contains kv.2.txid) := by
        refine List.mem_filter.mpr ⟨hsSp, ?_⟩
        rw [hsTx]
        simpa using htmem
      exact runNew_sp_mono o none op _ 0 _ _ ⟨s, hsF⟩
    · have htn : t ∈ mempool.filter
          (fun t2 => !((st.rates.filter (fun e => mempool.contains e.txid)).map
            TWFC.txid).contains t2) := by
        refine List.mem_filter.mpr ⟨htmem, ?_⟩
        simpa using hid
      exact runNew_covers o op t _ 0 _ _ htn (hfetch t htmem) hop

/-- Witness for the amended C2: the empty pre-cycle state with a one-element
mempool whose fetches succeed. -/
theorem spending_map_keys_match_contents_witness :
    (∀ kv ∈ mstate0.spending, kv.1 ∈ okMempoolOracle.inputsOf kv.2.txid) ∧
    (∀ t ∈ [3], okMempoolOracle.fetchOk t = true) ∧
    spendingInvariant (update_mempool_details_cycle okMempoolOracle none [3] mstate0)
      okMempoolOracle.inputsOf :=
  ⟨by decide, by decide,
   spending_map_keys_match_contents okMempoolOracle [3] mstate0 (by decide)
     (fun e he => absurd he (List.not_mem_nil e)) (by decide)⟩

end Fbbe
